import Mathlib

/-!
Verification of the image front-end of `dali` (`src/dali/image/image.cc`):
the path-based format classifier (`HasKnownImageExtension`,
`ListSupportedExtensions`) and the decode-once `Image` state machine.

Strings are modelled as lists of bytes (`List Nat`), since `std::string`
may contain embedded NUL bytes while the C functions `strlen` / `strncmp`
used by the skip-list check stop at the first NUL.
-/

namespace Dali

/-- Model of C `tolower` (as applied through `std::transform` with the
default "C" locale): maps ASCII uppercase letters (65..90) to lowercase,
leaves every other byte unchanged. -/
def cTolower (c : Nat) : Nat :=
  if 65 ≤ c ∧ c ≤ 90 then c + 32 else c

/-- C-string view of a byte buffer: the bytes up to (excluding) the first
NUL byte.  `strlen` and `strncmp` only ever look at this part. -/
def cstrOf (s : List Nat) : List Nat :=
  s.takeWhile (fun c => c != 0)

/-- Model of C `strlen`: the number of bytes before the first NUL. -/
def strlen (s : List Nat) : Nat :=
  (cstrOf s).length

/-- Model of `strncmp(a, b, n) == 0`: compares byte by byte, stops at the
first difference, at a NUL reached in both, or after `n` bytes.  Bytes
past the end of a list model the terminating NUL of the C buffer. -/
def strncmpIsZero : List Nat → List Nat → Nat → Bool
  | _, _, 0 => true
  | a, b, n + 1 =>
    let ca := a.headD 0
    let cb := b.headD 0
    if ca = cb then
      if ca = 0 then true else strncmpIsZero a.tail b.tail n
    else false

/-- Skip-list test from `HasKnownImageExtension`, line for line:
`strlen(ext) == strlen(image_path.c_str()) &&
 strncmp(ext, image_path.c_str(), strlen(ext)) == 0`. -/
def skipMatch (ext image_path : List Nat) : Bool :=
  strlen ext == strlen image_path && strncmpIsZero ext image_path (strlen ext)

/-- Search downward from position `p` for the highest position at which
`needle` occurs in `hay`; helper for `rfind`. -/
def rfindFrom (hay needle : List Nat) : Nat → Option Nat
  | 0 => if needle.isPrefixOf hay then some 0 else none
  | p + 1 =>
    if needle.isPrefixOf (hay.drop (p + 1)) then some (p + 1)
    else rfindFrom hay needle p

/-- Model of `std::string::rfind(const char *)`: the highest position at
which `needle` occurs in `hay` (positions range over `0..hay.length`, so
the empty needle is found at `hay.length`), or `none` (`npos`). -/
def rfind (hay needle : List Nat) : Option Nat :=
  rfindFrom hay needle hay.length

/-- Known-extension test from `HasKnownImageExtension`:
`pos = path_low.rfind(ext); pos != npos && pos + strlen(ext) == path_low.size()`.
The extension is a `const char *`, hence enters `rfind` via its
C-string view. -/
def knownMatch (path_low ext : List Nat) : Bool :=
  match rfind path_low (cstrOf ext) with
  | none => false
  | some pos => decide (pos + strlen ext = path_low.length)

/-- Byte list of an ASCII string literal, used for the fixed message
fragments streamed to `std::cerr`. -/
def strBytes (s : String) : List Nat :=
  s.data.map Char.toNat

/-- Configuration of the classifier.  Modelled from the spec: the two
fixed lists `kKnownImageExtensions` and `kSkipImageExtensions` are
declared in `dali/image/image.h`, which is not part of the excerpt
("two fixed, process-wide lists ... initialized once at process start and
read-only thereafter"), so they are held abstract here.  Entries are
C string literals in the source. -/
structure ClassifierConfig where
  kKnownImageExtensions : List (List Nat)
  kSkipImageExtensions : List (List Nat)

/-- Well-formedness of the configuration: every entry is a C string
literal and therefore contains no NUL byte. -/
def ClassifierConfig.WF (cfg : ClassifierConfig) : Prop :=
  (∀ e ∈ cfg.kKnownImageExtensions, (0 : Nat) ∉ e) ∧
  (∀ e ∈ cfg.kSkipImageExtensions, (0 : Nat) ∉ e)

instance (cfg : ClassifierConfig) : Decidable cfg.WF := by
  unfold ClassifierConfig.WF
  exact inferInstance

/-- Loop of `ListSupportedExtensions` over the remaining entries: stream
the entry, and append `", "` unless it is the last one. -/
def listSupportedGo : List (List Nat) → List Nat
  | [] => []
  | [e] => cstrOf e
  | e :: rest => cstrOf e ++ [44, 32] ++ listSupportedGo rest

/-- `ListSupportedExtensions`, mirroring the loop that streams each entry
and appends `", "` after every entry except the last.  Entries are
streamed as C strings by `operator<<`. -/
def ListSupportedExtensions (cfg : ClassifierConfig) : List Nat :=
  listSupportedGo cfg.kKnownImageExtensions

/-- Warning line streamed to `std::cerr` by `HasKnownImageExtension` when
no known extension matches (without the terminating `std::endl`). -/
def warningMessage (cfg : ClassifierConfig) (image_path : List Nat) : List Nat :=
  strBytes "[Warning]: File " ++ image_path ++
    strBytes " has extension that is not supproted by the decoder. " ++
    strBytes "Supported extensions: " ++ ListSupportedExtensions cfg ++ strBytes "."

/-- `HasKnownImageExtension`, returning the boolean result together with
the list of diagnostic lines written to `std::cerr` during the call.
The skip loop and the known loop return on the first match, which the
left-to-right `List.any` reproduces. -/
def HasKnownImageExtension (cfg : ClassifierConfig) (image_path : List Nat) :
    Bool × List (List Nat) :=
  let path_low := image_path.map cTolower
  if cfg.kSkipImageExtensions.any (fun ext => skipMatch ext image_path) then
    (false, [])
  else if cfg.kKnownImageExtensions.any (fun ext => knownMatch path_low ext) then
    (true, [])
  else
    (false, [warningMessage cfg image_path])

/-- Splitting a byte string on the two-byte separator `", "`, greedily
from the left; the reference operation used by the spec to state that
`ListSupportedExtensions` round-trips to the extension list. -/
def splitOnCommaSpace : List Nat → List (List Nat)
  | [] => [[]]
  | 44 :: 32 :: rest => [] :: splitOnCommaSpace rest
  | c :: rest =>
    match splitOnCommaSpace rest with
    | [] => [[c]]
    | r :: rs => (c :: r) :: rs

/-- Unfolding of the C-string view at a cons cell. -/
theorem cstrOf_cons (c : Nat) (s : List Nat) :
    cstrOf (c :: s) = if c = 0 then [] else c :: cstrOf s := by
  by_cases hc : c = 0 <;> simp [cstrOf, List.takeWhile_cons, hc]

/-- Bytes of a NUL-free buffer are their own C-string view. -/
theorem cstrOf_eq_self {s : List Nat} (h : (0 : Nat) ∉ s) : cstrOf s = s := by
  induction s with
  | nil => rfl
  | cons c cs ih =>
    have hc : c ≠ 0 := by
      intro he
      exact h (he ▸ List.mem_cons_self c cs)
    have hcs : (0 : Nat) ∉ cs := fun hm => h (List.mem_cons_of_mem _ hm)
    simp [cstrOf_cons, hc, ih hcs]

/-- Length of the C-string view of a NUL-free buffer. -/
theorem strlen_eq_length {s : List Nat} (h : (0 : Nat) ∉ s) : strlen s = s.length := by
  simp [strlen, cstrOf_eq_self h]

/-- Unfolding of `strncmpIsZero` at two cons cells and positive count. -/
theorem strncmpIsZero_cons (x y : Nat) (a b : List Nat) (n : Nat) :
    strncmpIsZero (x :: a) (y :: b) (n + 1) =
      if x = y then (if x = 0 then true else strncmpIsZero a b n) else false :=
  rfl

/-- Characterisation of a zero `strncmp` result when both arguments have
the same `strlen` and the count is that common length: the C-string views
coincide. -/
theorem strncmpIsZero_iff :
    ∀ (a b : List Nat), strlen a = strlen b →
      (strncmpIsZero a b (strlen a) = true ↔ cstrOf a = cstrOf b)
  | [], b, h => by
    have hb : cstrOf b = [] := by
      have hlen : (cstrOf b).length = 0 := by simpa [strlen, cstrOf] using h.symm
      exact List.length_eq_zero.mp hlen
    constructor
    · intro _
      rw [hb]
      rfl
    · intro _
      rfl
  | x :: a, b, h => by
    by_cases hx : x = 0
    · have ha : cstrOf (x :: a) = [] := by simp [cstrOf_cons, hx]
      have h0 : strlen (x :: a) = 0 := by simp [strlen, ha]
      have hb : cstrOf b = [] := by
        have hlen : (cstrOf b).length = 0 := by
          have hb0 := h.symm.trans h0
          simpa [strlen] using hb0
        exact List.length_eq_zero.mp hlen
      rw [h0]
      simp [strncmpIsZero, ha, hb]
    · have ha : cstrOf (x :: a) = x :: cstrOf a := by simp [cstrOf_cons, hx]
      have hlen : strlen (x :: a) = strlen a + 1 := by simp [strlen, ha]
      match b with
      | [] =>
        exfalso
        rw [hlen] at h
        simp [strlen, cstrOf] at h
      | y :: b =>
        by_cases hy : y = 0
        · exfalso
          have hb0 : strlen (y :: b) = 0 := by simp [strlen, cstrOf_cons, hy]
          omega
        · have hbb : cstrOf (y :: b) = y :: cstrOf b := by simp [cstrOf_cons, hy]
          have hlenb : strlen (y :: b) = strlen b + 1 := by simp [strlen, hbb]
          have hab : strlen a = strlen b := by omega
          rw [hlen, strncmpIsZero_cons, ha, hbb]
          by_cases hxy : x = y
          · subst hxy
            rw [if_pos rfl, if_neg hx]
            have ih := strncmpIsZero_iff a b hab
            simp [List.cons.injEq, ih]
          · simp [hxy]

/-- Characterisation of the skip-list test: it fires exactly when the
C-string views (bytes up to the first NUL) of entry and path coincide. -/
theorem skipMatch_iff (ext image_path : List Nat) :
    skipMatch ext image_path = true ↔ cstrOf ext = cstrOf image_path := by
  constructor
  · intro h
    simp only [skipMatch, Bool.and_eq_true, beq_iff_eq] at h
    exact (strncmpIsZero_iff ext image_path h.1).mp h.2
  · intro h
    have hl : strlen ext = strlen image_path := by simp [strlen, h]
    simp only [skipMatch, Bool.and_eq_true, beq_iff_eq]
    exact ⟨hl, (strncmpIsZero_iff ext image_path hl).mpr h⟩

/-- Soundness of the downward search: a hit is a genuine occurrence at a
position no greater than the start. -/
theorem rfindFrom_eq_some {hay needle : List Nat} :
    ∀ {p q : Nat}, rfindFrom hay needle p = some q →
      needle.isPrefixOf (hay.drop q) = true ∧ q ≤ p
  | 0, q, h => by
    by_cases hp : needle.isPrefixOf hay
    · simp [rfindFrom, hp] at h
      subst h
      simpa using hp
    · simp [rfindFrom, hp] at h
  | p + 1, q, h => by
    by_cases hp : needle.isPrefixOf (hay.drop (p + 1))
    · simp [rfindFrom, hp] at h
      subst h
      exact ⟨hp, Nat.le_refl _⟩
    · simp only [rfindFrom, hp, if_false] at h
      have := rfindFrom_eq_some h
      exact ⟨this.1, Nat.le_trans this.2 (Nat.le_succ _)⟩

/-- Completeness of the downward search: an occurrence at `p0` below the
start guarantees a hit at some position at least `p0`. -/
theorem rfindFrom_complete {hay needle : List Nat} {p0 : Nat}
    (hocc : needle.isPrefixOf (hay.drop p0) = true) :
    ∀ {p : Nat}, p0 ≤ p → ∃ q, rfindFrom hay needle p = some q ∧ p0 ≤ q
  | 0, hle => by
    have hp0 : p0 = 0 := Nat.le_zero.mp hle
    subst hp0
    simp only [List.drop_zero] at hocc
    exact ⟨0, by simp [rfindFrom, hocc], Nat.le_refl _⟩
  | p + 1, hle => by
    by_cases hp : needle.isPrefixOf (hay.drop (p + 1))
    · exact ⟨p + 1, by simp [rfindFrom, hp], hle⟩
    · have hne : p0 ≠ p + 1 := by
        intro he
        subst he
        exact hp hocc
      have hle' : p0 ≤ p := by omega
      obtain ⟨q, hq, hq0⟩ := rfindFrom_complete hocc hle'
      exact ⟨q, by simp [rfindFrom, hp, hq], hq0⟩

/-- Characterisation of the known-extension test for a NUL-free entry:
it fires exactly when the entry is a suffix of the (lower-cased) path. -/
theorem knownMatch_iff {path_low ext : List Nat} (h0 : (0 : Nat) ∉ ext) :
    knownMatch path_low ext = true ↔ ext <:+ path_low := by
  have hc : cstrOf ext = ext := cstrOf_eq_self h0
  have hl : strlen ext = ext.length := strlen_eq_length h0
  constructor
  · intro h
    simp only [knownMatch, rfind, hc, hl] at h
    cases hr : rfindFrom path_low ext path_low.length with
    | none => simp [hr] at h
    | some pos =>
      simp only [hr, decide_eq_true_eq] at h
      obtain ⟨hpre, -⟩ := rfindFrom_eq_some hr
      have hpre' : ext <+: path_low.drop pos := List.isPrefixOf_iff_prefix.mp hpre
      have hlen : (path_low.drop pos).length = ext.length := by
        simp [List.length_drop]
        omega
      have : ext = path_low.drop pos := hpre'.eq_of_length hlen.symm
      rw [this]
      exact List.drop_suffix pos path_low
  · intro h
    have hlle : ext.length ≤ path_low.length := h.length_le
    have hdrop : ext = path_low.drop (path_low.length - ext.length) :=
      List.suffix_iff_eq_drop.mp h
    have hocc : ext.isPrefixOf (path_low.drop (path_low.length - ext.length)) = true :=
      List.isPrefixOf_iff_prefix.mpr (hdrop ▸ List.prefix_refl ext)
    obtain ⟨q, hq, hq0⟩ :=
      rfindFrom_complete hocc (Nat.sub_le path_low.length ext.length)
    obtain ⟨hpre, hqle⟩ := rfindFrom_eq_some hq
    have hpre' : ext <+: path_low.drop q := List.isPrefixOf_iff_prefix.mp hpre
    have hup : ext.length ≤ path_low.length - q := by
      have := hpre'.length_le
      simpa [List.length_drop] using this
    have hqeq : q = path_low.length - ext.length := by omega
    simp only [knownMatch, rfind, hc, hl, hq, decide_eq_true_eq]
    omega

/-- Splitting a byte string that does not contain the separator `", "`
yields that string as the single field. -/
theorem splitOnCommaSpace_no_sep : ∀ (s : List Nat), ¬ ([44, 32] <:+: s) →
    splitOnCommaSpace s = [s] := by
  intro s
  induction s using splitOnCommaSpace.induct with
  | case1 =>
    intro _
    rfl
  | case2 rest ih =>
    intro h
    exact absurd ⟨[], rest, rfl⟩ h
  | case3 c rest hne hrest ih =>
    intro h
    have hr : ¬ ([44, 32] <:+: rest) := fun hi => h (List.infix_cons hi)
    rw [ih hr] at hrest
    exact absurd hrest (by simp)
  | case4 c rest hne r rs hrest ih =>
    intro h
    have hr : ¬ ([44, 32] <:+: rest) := fun hi => h (List.infix_cons hi)
    rw [splitOnCommaSpace.eq_def]
    split
    · rename_i heq
      cases heq
    · rename_i rest1 heq
      injection heq with hc htl
      exact (hne rest1 hc htl).elim
    · rename_i c2 rest2 hnomatch heq
      injection heq with hc htl
      subst hc
      subst htl
      rw [ih hr]

/-- Splitting peels off a leading separator-free field followed by the
separator. -/
theorem splitOnCommaSpace_sep_append : ∀ (a t : List Nat), ¬ ([44, 32] <:+: a) →
    splitOnCommaSpace (a ++ 44 :: 32 :: t) = a :: splitOnCommaSpace t := by
  intro a
  induction a using splitOnCommaSpace.induct with
  | case1 =>
    intro t _
    rfl
  | case2 rest ih =>
    intro t h
    exact absurd ⟨[], rest, rfl⟩ h
  | case3 c rest hne hrest ih =>
    intro t h
    have hr : ¬ ([44, 32] <:+: rest) := fun hi => h (List.infix_cons hi)
    rw [List.cons_append, splitOnCommaSpace.eq_def]
    split
    · rename_i heq
      cases heq
    · rename_i rest1 heq
      injection heq with hc htl
      cases rest with
      | nil =>
        injection htl with h44 _
        exact absurd h44 (by decide)
      | cons d rest2 =>
        rw [List.cons_append] at htl
        injection htl with hd _
        exact (hne rest2 hc (by rw [hd])).elim
    · rename_i c2 rest2 hnomatch heq
      injection heq with hc htl
      subst hc
      rw [← htl, ih t hr]
  | case4 c rest hne r rs hrest ih =>
    intro t h
    have hr : ¬ ([44, 32] <:+: rest) := fun hi => h (List.infix_cons hi)
    rw [List.cons_append, splitOnCommaSpace.eq_def]
    split
    · rename_i heq
      cases heq
    · rename_i rest1 heq
      injection heq with hc htl
      cases rest with
      | nil =>
        injection htl with h44 _
        exact absurd h44 (by decide)
      | cons d rest2 =>
        rw [List.cons_append] at htl
        injection htl with hd _
        exact (hne rest2 hc (by rw [hd])).elim
    · rename_i c2 rest2 hnomatch heq
      injection heq with hc htl
      subst hc
      rw [← htl, ih t hr]

/-- Round trip of the `ListSupportedExtensions` loop: splitting the
joined output on `", "` recovers the entry list, provided the entries
are NUL-free and none contains the separator. -/
theorem listSupportedGo_split : ∀ (l : List (List Nat)), l ≠ [] →
    (∀ e ∈ l, (0 : Nat) ∉ e) → (∀ e ∈ l, ¬ ([44, 32] <:+: e)) →
    splitOnCommaSpace (listSupportedGo l) = l := by
  intro l
  induction l using listSupportedGo.induct with
  | case1 =>
    intro h _ _
    exact absurd rfl h
  | case2 e =>
    intro _ hwf hsep
    have he : cstrOf e = e := cstrOf_eq_self (hwf e (by simp))
    show splitOnCommaSpace (listSupportedGo [e]) = [e]
    rw [show listSupportedGo [e] = cstrOf e from rfl, he]
    exact splitOnCommaSpace_no_sep e (hsep e (by simp))
  | case3 e rest hne ih =>
    intro _ hwf hsep
    cases rest with
    | nil => exact absurd rfl (fun hx => hne hx)
    | cons f rest2 =>
      have he : cstrOf e = e := cstrOf_eq_self (hwf e (by simp))
      rw [show listSupportedGo (e :: f :: rest2) =
            cstrOf e ++ [44, 32] ++ listSupportedGo (f :: rest2) from rfl,
          he, List.append_assoc]
      rw [show ([44, 32] ++ listSupportedGo (f :: rest2)) =
            44 :: 32 :: listSupportedGo (f :: rest2) from rfl]
      rw [splitOnCommaSpace_sep_append e _ (hsep e (by simp))]
      rw [ih (by simp) (fun x hx => hwf x (List.mem_cons_of_mem _ hx))
            (fun x hx => hsep x (List.mem_cons_of_mem _ hx))]

/-- Helper: the skip loop finds no match exactly when no skip entry has
the same C-string view as the path. -/
theorem skipAny_eq_false_iff (cfg : ClassifierConfig) (image_path : List Nat)
    (hwf : cfg.WF) :
    (cfg.kSkipImageExtensions.any (fun ext => skipMatch ext image_path) = false ↔
      ∀ e ∈ cfg.kSkipImageExtensions, e ≠ cstrOf image_path) := by
  rw [List.any_eq_false]
  constructor
  · intro h e he hc
    exact h e he ((skipMatch_iff e image_path).mpr
      (by rw [← hc, cstrOf_eq_self (hwf.2 e he)]))
  · intro h e he hm
    have hc := (skipMatch_iff e image_path).mp hm
    rw [cstrOf_eq_self (hwf.2 e he)] at hc
    exact h e he hc

/-- Helper: the known loop finds no match exactly when no known entry is
a suffix of the lower-cased path. -/
theorem knownAny_eq_false_iff (cfg : ClassifierConfig) (image_path : List Nat)
    (hwf : cfg.WF) :
    (cfg.kKnownImageExtensions.any
        (fun ext => knownMatch (image_path.map cTolower) ext) = false ↔
      ∀ e ∈ cfg.kKnownImageExtensions, ¬ (e <:+ image_path.map cTolower)) := by
  rw [List.any_eq_false]
  constructor
  · intro h e he hs
    exact h e he ((knownMatch_iff (hwf.1 e he)).mpr hs)
  · intro h e he hm
    exact h e he ((knownMatch_iff (hwf.1 e he)).mp hm)

/-- Claim C1 (amended): for every path whose fully lower-cased form ends
with some entry of the known-extension list and whose C-string view (the
bytes before the first NUL, which is what the skip comparison inspects)
differs from every skip-list entry, `HasKnownImageExtension` returns
`true`.  The extension lists consist of C string literals, hence the
NUL-freeness hypothesis on the configuration. -/
theorem hasKnownImageExtension_true_of_known_suffix
    (cfg : ClassifierConfig) (image_path : List Nat)
    (hwf : cfg.WF)
    (hskip : ∀ e ∈ cfg.kSkipImageExtensions, e ≠ cstrOf image_path)
    (hknown : ∃ e ∈ cfg.kKnownImageExtensions, e <:+ image_path.map cTolower) :
    (HasKnownImageExtension cfg image_path).1 = true := by
  obtain ⟨e, he, hsuf⟩ := hknown
  have hskipAny : cfg.kSkipImageExtensions.any
      (fun ext => skipMatch ext image_path) = false :=
    (skipAny_eq_false_iff cfg image_path hwf).mpr hskip
  have hknownAny : cfg.kKnownImageExtensions.any
      (fun ext => knownMatch (image_path.map cTolower) ext) = true := by
    rw [List.any_eq_true]
    exact ⟨e, he, (knownMatch_iff (hwf.1 e he)).mpr hsuf⟩
  simp [HasKnownImageExtension, hskipAny, hknownAny]

/-- Claim C1, witness: `"photo.JPG"` with known list containing `"jpg"`
and skip list `["sk"]` is classified `true`. -/
theorem hasKnownImageExtension_photo_jpg_witness :
    (HasKnownImageExtension ⟨[[106, 112, 103]], [[115, 107]]⟩
      [112, 104, 111, 116, 111, 46, 74, 80, 71]).1 = true :=
  hasKnownImageExtension_true_of_known_suffix _ _ (by decide) (by decide) (by decide)

/-- Claim C1, counterexample to the original wording: the path
`"sk\x00.jpg"` (bytes `[115, 107, 0, 46, 106, 112, 103]`) is not equal,
as a full byte string, to any entry of the skip list `["sk"]`, and its
lower-cased form ends with the known entry `"jpg"`, yet the classifier
returns `false`, because the skip comparison only sees the bytes before
the first NUL. -/
theorem hasKnownImageExtension_nul_path_counterexample :
    (∀ e ∈ (⟨[[106, 112, 103]], [[115, 107]]⟩ :
        ClassifierConfig).kSkipImageExtensions,
      [115, 107, 0, 46, 106, 112, 103] ≠ e) ∧
    (∃ e ∈ (⟨[[106, 112, 103]], [[115, 107]]⟩ :
        ClassifierConfig).kKnownImageExtensions,
      e <:+ [115, 107, 0, 46, 106, 112, 103].map cTolower) ∧
    (HasKnownImageExtension ⟨[[106, 112, 103]], [[115, 107]]⟩
      [115, 107, 0, 46, 106, 112, 103]).1 = false := by
  decide

/-- Claim C2: a path that equals a skip-list entry byte for byte is
rejected silently — result `false`, no diagnostic — whatever the known
list contains, because the skip loop runs first and returns. -/
theorem hasKnownImageExtension_skip_silent
    (cfg : ClassifierConfig) (image_path : List Nat)
    (hmem : image_path ∈ cfg.kSkipImageExtensions) :
    HasKnownImageExtension cfg image_path = (false, []) := by
  have hself : skipMatch image_path image_path = true :=
    (skipMatch_iff image_path image_path).mpr rfl
  have hany : cfg.kSkipImageExtensions.any
      (fun ext => skipMatch ext image_path) = true := by
    rw [List.any_eq_true]
    exact ⟨image_path, hmem, hself⟩
  simp [HasKnownImageExtension, hany]

/-- Claim C2, witness: `"thumbs.db"` listed verbatim in the skip list is
rejected with no diagnostic even though it also ends with the known
entry `"db"`. -/
theorem hasKnownImageExtension_thumbs_db_witness :
    HasKnownImageExtension
      ⟨[[100, 98]], [[116, 104, 117, 109, 98, 115, 46, 100, 98]]⟩
      [116, 104, 117, 109, 98, 115, 46, 100, 98] = (false, []) :=
  hasKnownImageExtension_skip_silent _ _ (by decide)

/-- Claim C3 (amended): a diagnostic is produced exactly when the path's
C-string view (the bytes before the first NUL, which is what the skip
comparison inspects) differs from every skip-list entry and the
lower-cased path ends with no known entry; in that case the result pairs
`false` with exactly one line, and that line contains the original path
and the full `ListSupportedExtensions` listing as contiguous segments. -/
theorem hasKnownImageExtension_warning_iff
    (cfg : ClassifierConfig) (image_path : List Nat)
    (hwf : cfg.WF) :
    ((HasKnownImageExtension cfg image_path).2 ≠ [] ↔
      ((∀ e ∈ cfg.kSkipImageExtensions, e ≠ cstrOf image_path) ∧
       (∀ e ∈ cfg.kKnownImageExtensions, ¬ (e <:+ image_path.map cTolower)))) ∧
    (((∀ e ∈ cfg.kSkipImageExtensions, e ≠ cstrOf image_path) ∧
       (∀ e ∈ cfg.kKnownImageExtensions, ¬ (e <:+ image_path.map cTolower))) →
      HasKnownImageExtension cfg image_path =
        (false, [warningMessage cfg image_path])) ∧
    image_path <:+: warningMessage cfg image_path ∧
    ListSupportedExtensions cfg <:+: warningMessage cfg image_path := by
  refine ⟨?_, ?_, ?_, ?_⟩
  · cases hA : cfg.kSkipImageExtensions.any (fun ext => skipMatch ext image_path) with
    | true =>
      simp only [HasKnownImageExtension, hA, if_true]
      constructor
      · intro hne
        exact absurd rfl hne
      · intro hcond
        have := (skipAny_eq_false_iff cfg image_path hwf).mpr hcond.1
        rw [this] at hA
        cases hA
    | false =>
      cases hB : cfg.kKnownImageExtensions.any
          (fun ext => knownMatch (image_path.map cTolower) ext) with
      | true =>
        simp only [HasKnownImageExtension, hA, hB, if_true, if_false,
          Bool.false_eq_true]
        constructor
        · intro hne
          exact absurd rfl hne
        · intro hcond
          have := (knownAny_eq_false_iff cfg image_path hwf).mpr hcond.2
          rw [this] at hB
          cases hB
      | false =>
        simp only [HasKnownImageExtension, hA, hB, if_false, Bool.false_eq_true]
        constructor
        · intro _
          exact ⟨(skipAny_eq_false_iff cfg image_path hwf).mp hA,
            (knownAny_eq_false_iff cfg image_path hwf).mp hB⟩
        · intro _
          simp
  · intro hcond
    have hA : cfg.kSkipImageExtensions.any
        (fun ext => skipMatch ext image_path) = false :=
      (skipAny_eq_false_iff cfg image_path hwf).mpr hcond.1
    have hB : cfg.kKnownImageExtensions.any
        (fun ext => knownMatch (image_path.map cTolower) ext) = false :=
      (knownAny_eq_false_iff cfg image_path hwf).mpr hcond.2
    simp [HasKnownImageExtension, hA, hB]
  · exact ⟨strBytes "[Warning]: File ",
      strBytes " has extension that is not supproted by the decoder. " ++
        strBytes "Supported extensions: " ++ ListSupportedExtensions cfg ++
        strBytes ".",
      by simp [warningMessage, List.append_assoc]⟩
  · exact ⟨strBytes "[Warning]: File " ++ image_path ++
      strBytes " has extension that is not supproted by the decoder. " ++
      strBytes "Supported extensions: ",
      strBytes ".",
      by simp [warningMessage, List.append_assoc]⟩

/-- Claim C3, witness: `"readme.txt"` with known list `["jpg"]` and skip
list `["sk"]` matches neither list, so the call returns `false` together
with exactly the one warning line. -/
theorem hasKnownImageExtension_readme_txt_witness :
    HasKnownImageExtension ⟨[[106, 112, 103]], [[115, 107]]⟩
        [114, 101, 97, 100, 109, 101, 46, 116, 120, 116] =
      (false, [warningMessage ⟨[[106, 112, 103]], [[115, 107]]⟩
        [114, 101, 97, 100, 109, 101, 46, 116, 120, 116]]) :=
  (hasKnownImageExtension_warning_iff _ _ (by decide)).2.1 ⟨by decide, by decide⟩

/-- Claim C3, counterexample to the original wording: the path
`"sk\x00x"` (bytes `[115, 107, 0, 120]`) is not equal, as a full byte
string, to any skip-list entry of `["sk"]` and its lower-cased form ends
with no known extension of `["jpg"]`, yet no diagnostic is produced: the
skip comparison only sees the bytes before the first NUL and silences
the path. -/
theorem hasKnownImageExtension_nul_warning_counterexample :
    (∀ e ∈ (⟨[[106, 112, 103]], [[115, 107]]⟩ :
        ClassifierConfig).kSkipImageExtensions,
      [115, 107, 0, 120] ≠ e) ∧
    (∀ e ∈ (⟨[[106, 112, 103]], [[115, 107]]⟩ :
        ClassifierConfig).kKnownImageExtensions,
      ¬ (e <:+ [115, 107, 0, 120].map cTolower)) ∧
    (HasKnownImageExtension ⟨[[106, 112, 103]], [[115, 107]]⟩
      [115, 107, 0, 120]).2 = [] := by
  decide

/-- Claim C4: `ListSupportedExtensions` joins the known entries in list
order with `", "` and no trailing separator, so splitting its output on
`", "` yields exactly the known-extension list.  The hypotheses record
that the fixed entries are plain nonempty literal suffixes (NUL-free and
never containing `", "` themselves). -/
theorem listSupportedExtensions_split_round_trip
    (cfg : ClassifierConfig)
    (hne : cfg.kKnownImageExtensions ≠ [])
    (hwf : ∀ e ∈ cfg.kKnownImageExtensions, (0 : Nat) ∉ e)
    (hsep : ∀ e ∈ cfg.kKnownImageExtensions, ¬ ([44, 32] <:+: e)) :
    splitOnCommaSpace (ListSupportedExtensions cfg) = cfg.kKnownImageExtensions :=
  listSupportedGo_split cfg.kKnownImageExtensions hne hwf hsep

/-- Claim C4, witness: the list `["jpg", "png"]` joins to `"jpg, png"`
and splits back to itself. -/
theorem listSupportedExtensions_split_witness :
    splitOnCommaSpace (ListSupportedExtensions
      ⟨[[106, 112, 103], [112, 110, 103]], [[115, 107]]⟩) =
      [[106, 112, 103], [112, 110, 103]] :=
  listSupportedExtensions_split_round_trip _ (by decide) (by decide) (by decide)

/-- Claim C9: the skip comparison uses C-string semantics — it fires
exactly on the bytes of the path before its first NUL, so any path whose
pre-NUL prefix has the C-string view of a skip entry is silenced, even
when the full path differs from every entry. -/
theorem hasKnownImageExtension_skip_cstring_semantics
    (cfg : ClassifierConfig) (image_path : List Nat)
    (h : ∃ e ∈ cfg.kSkipImageExtensions, cstrOf image_path = cstrOf e) :
    HasKnownImageExtension cfg image_path = (false, []) := by
  obtain ⟨e, he, hc⟩ := h
  have hm : skipMatch e image_path = true := (skipMatch_iff e image_path).mpr hc.symm
  have hany : cfg.kSkipImageExtensions.any
      (fun ext => skipMatch ext image_path) = true := by
    rw [List.any_eq_true]
    exact ⟨e, he, hm⟩
  simp [HasKnownImageExtension, hany]

/-- Claim C9, witness: `"sk\x00.jpg"` differs from the skip entry `"sk"`
as a byte string, but its prefix before the NUL equals it, so the
classifier returns `false` with no diagnostic. -/
theorem hasKnownImageExtension_skip_cstring_witness :
    [115, 107, 0, 46, 106, 112, 103] ≠ [115, 107] ∧
    HasKnownImageExtension ⟨[[106, 112, 103]], [[115, 107]]⟩
      [115, 107, 0, 46, 106, 112, 103] = (false, []) :=
  ⟨by decide,
    hasKnownImageExtension_skip_cstring_semantics _ _ (by decide)⟩

/-- Colour tag `DALIImageType` supplied at construction.  Modelled from
the spec: the enumeration is declared outside the excerpt ("an
enumerated tag describing the desired output color interpretation
(e.g., RGB, grayscale)"); it is passed opaquely to the decode extension
point, so only the presence of distinct values matters here. -/
inductive DALIImageType
  | DALI_RGB
  | DALI_GRAY

/-- Shape of an image.  Modelled from the spec: `Image::Shape` is
declared in the missing header; the spec describes it as "an ordered
sequence of non-negative integer dimensions (e.g., height, width,
channels)". -/
abbrev Shape := List Nat

/-- Decoded pixel buffer (`std::shared_ptr<uint8_t>`): `none` models the
null pointer that `decoded_image_` holds before decode. -/
abbrev DecodedBuffer := Option (List Nat)

/-- Errors surfaced by the component: `DALI_ENFORCE` failures (the
invalid-state errors of the spec) and errors raised by the decode
extension point on malformed bytes. -/
inductive DaliError
  | invalidState (msg : String)
  | extensionFailure (msg : String)

/-- Format-specific extension points of `Image` (the pure virtual
methods `DecodeImpl` and `PeekShapeImpl`), supplied by each encoding.
`DecodeImpl` may fail on malformed bytes; `PeekShapeImpl` is the
header-only peek, modelled as the deterministic pure function the spec
requires of it. -/
structure ImageExt where
  DecodeImpl :
    DALIImageType → List Nat → Nat → Except DaliError (DecodedBuffer × Shape)
  PeekShapeImpl : List Nat → Nat → Shape

/-- Fields of an `Image`: the borrowed encoded view, its length and the
colour tag stored by the constructor, and the fields written by
`Decode` (`decoded_image_`, `shape_`, `decoded_`). -/
structure Image where
  encoded_image : List Nat
  length : Nat
  image_type : DALIImageType
  decoded_image : DecodedBuffer
  shape : Shape
  decoded : Bool

/-- Constructor `Image::Image(encoded_buffer, length, image_type)`:
stores the borrowed view and tag; no decoding occurs, so the decode
fields keep their initial values (`decoded_` false, `decoded_image_` a
null shared pointer, `shape_` default-constructed). -/
def Image.construct (encoded_buffer : List Nat) (length : Nat)
    (image_type : DALIImageType) : Image :=
  { encoded_image := encoded_buffer, length := length,
    image_type := image_type,
    decoded_image := none, shape := [], decoded := false }

/-- Method `Image::Decode()`: `DALI_ENFORCE(!decoded_, ...)`, then the
extension point runs, and only after it returns are `decoded_image_`,
`shape_` and `decoded_` assigned.  The pair returned is (call outcome,
state of the object after the call). -/
def Image.Decode (ext : ImageExt) (img : Image) :
    Except DaliError Unit × Image :=
  if img.decoded then
    (Except.error
      (DaliError.invalidState "Called decode for already decoded image"), img)
  else
    match ext.DecodeImpl img.image_type img.encoded_image img.length with
    | Except.error e => (Except.error e, img)
    | Except.ok decoded =>
      (Except.ok (),
        { img with
            decoded_image := decoded.1, shape := decoded.2, decoded := true })

/-- Method `Image::GetImage() const`: `DALI_ENFORCE(decoded_, ...)` then
returns the shared decoded buffer; being `const`, it returns the
receiver unchanged. -/
def Image.GetImage (img : Image) : Except DaliError DecodedBuffer × Image :=
  if img.decoded then (Except.ok img.decoded_image, img)
  else
    (Except.error (DaliError.invalidState "Image not decoded. Run Decode()"),
      img)

/-- Method `Image::PeekShape() const`: delegates to `PeekShapeImpl` over
the encoded view with no state check; being `const`, it returns the
receiver unchanged. -/
def Image.PeekShape (ext : ImageExt) (img : Image) : Shape × Image :=
  (ext.PeekShapeImpl img.encoded_image img.length, img)

/-- Method `Image::GetShape() const`: `DALI_ENFORCE(decoded_, ...)` then
returns the stored shape; being `const`, it returns the receiver
unchanged. -/
def Image.GetShape (img : Image) : Except DaliError Shape × Image :=
  if img.decoded then (Except.ok img.shape, img)
  else
    (Except.error (DaliError.invalidState "Image not decoded. Run Decode()"),
      img)

/-- Claim C5: after a `Decode` that succeeded, a second `Decode` fails
with the invalid-state error of `DALI_ENFORCE(!decoded_, ...)` and
returns the image with every field exactly as the first call left it. -/
theorem decode_twice_invalid_state (ext : ImageExt) (img img1 : Image)
    (h : Image.Decode ext img = (Except.ok (), img1)) :
    Image.Decode ext img1 =
      (Except.error
        (DaliError.invalidState "Called decode for already decoded image"),
        img1) := by
  have himg : img1.decoded = true := by
    by_cases hd : img.decoded
    · simp [Image.Decode, hd] at h
    · cases hi : ext.DecodeImpl img.image_type img.encoded_image img.length with
      | error e => simp [Image.Decode, hd, hi] at h
      | ok d =>
        simp [Image.Decode, hd, hi] at h
        rw [← h]
  simp [Image.Decode, himg]

/-- Claim C6: on a freshly constructed image both `GetImage` and
`GetShape` fail with the invalid-state error and leave the image
unchanged; after a successful `Decode`, `GetImage` returns the buffer
and `GetShape` the shape that this `Decode` call stored (the two
components of the extension point's result). -/
theorem get_fails_pending_and_reads_after_decode
    (buf : List Nat) (len : Nat) (ty : DALIImageType) (ext : ImageExt)
    (img1 : Image)
    (hdec : Image.Decode ext (Image.construct buf len ty) =
      (Except.ok (), img1)) :
    Image.GetImage (Image.construct buf len ty) =
      (Except.error (DaliError.invalidState "Image not decoded. Run Decode()"),
        Image.construct buf len ty) ∧
    Image.GetShape (Image.construct buf len ty) =
      (Except.error (DaliError.invalidState "Image not decoded. Run Decode()"),
        Image.construct buf len ty) ∧
    ∃ d, ext.DecodeImpl ty buf len = Except.ok d ∧
      Image.GetImage img1 = (Except.ok d.1, img1) ∧
      Image.GetShape img1 = (Except.ok d.2, img1) := by
  refine ⟨by simp [Image.GetImage, Image.construct],
    by simp [Image.GetShape, Image.construct], ?_⟩
  cases hi : ext.DecodeImpl ty buf len with
  | error e => simp [Image.Decode, Image.construct, hi] at hdec
  | ok d =>
    simp [Image.Decode, Image.construct, hi] at hdec
    exact ⟨d, rfl, by simp [Image.GetImage, ← hdec],
      by simp [Image.GetShape, ← hdec]⟩

/-- Claim C7: under the spec's purity contract for the extension points
— the peeked shape agrees with the shape component produced by
`DecodeImpl` on the same bytes — `PeekShape` on a fresh image returns
exactly the shape that `GetShape` reports after a successful `Decode`. -/
theorem peekShape_eq_getShape_after_decode
    (buf : List Nat) (len : Nat) (ty : DALIImageType) (ext : ImageExt)
    (img1 : Image)
    (hpure : ∀ d, ext.DecodeImpl ty buf len = Except.ok d →
      ext.PeekShapeImpl buf len = d.2)
    (hdec : Image.Decode ext (Image.construct buf len ty) =
      (Except.ok (), img1)) :
    Image.GetShape img1 =
      (Except.ok (Image.PeekShape ext (Image.construct buf len ty)).1,
        img1) := by
  cases hi : ext.DecodeImpl ty buf len with
  | error e => simp [Image.Decode, Image.construct, hi] at hdec
  | ok d =>
    simp [Image.Decode, Image.construct, hi] at hdec
    have hp : ext.PeekShapeImpl buf len = d.2 := hpure d hi
    simp [Image.GetShape, Image.PeekShape, Image.construct, ← hdec, hp]

/-- Claim C8: `PeekShape` is a pure pass-through to `PeekShapeImpl` over
the encoded view — callable whatever the value of the `decoded` flag, it
returns the shape without error, leaves every field of the image
unchanged, and its result does not depend on the state flag. -/
theorem peekShape_const (ext : ImageExt) (img : Image) (b : Bool) :
    Image.PeekShape ext img =
      (ext.PeekShapeImpl img.encoded_image img.length, img) ∧
    (Image.PeekShape ext { img with decoded := b }).1 =
      (Image.PeekShape ext img).1 :=
  ⟨rfl, rfl⟩

/-- Claim C10: when the extension point fails, `Decode` propagates the
error and the image is returned with no field modified — the `decoded`
flag is still false, so the decode is not spuriously marked done.  The
assignments in the source all come after the `DecodeImpl` call, so a
thrown error leaves the object untouched. -/
theorem decode_failure_leaves_pending (ext : ImageExt) (img : Image)
    (e : DaliError)
    (h1 : img.decoded = false)
    (h2 : ext.DecodeImpl img.image_type img.encoded_image img.length =
      Except.error e) :
    Image.Decode ext img = (Except.error e, img) ∧
    (Image.Decode ext img).2.decoded = false := by
  have heq : Image.Decode ext img = (Except.error e, img) := by
    simp [Image.Decode, h1, h2]
  exact ⟨heq, by rw [heq]; exact h1⟩

/-- Extension point used by the lifecycle witnesses: always decodes to a
one-byte buffer with shape `[1, 2, 3]`, and peeks that same shape. -/
def exampleExt : ImageExt :=
  { DecodeImpl := fun _ _ _ => Except.ok (some [7], [1, 2, 3]),
    PeekShapeImpl := fun _ _ => [1, 2, 3] }

/-- Extension point whose decode always fails, used by the
decode-failure witness. -/
def exampleFailExt : ImageExt :=
  { DecodeImpl := fun _ _ _ =>
      Except.error (DaliError.extensionFailure "corrupt"),
    PeekShapeImpl := fun _ _ => [1, 2, 3] }

/-- Image state reached by decoding `Image.construct [9] 1 DALI_RGB`
with `exampleExt`. -/
def exampleDecoded : Image :=
  { encoded_image := [9], length := 1, image_type := DALIImageType.DALI_RGB,
    decoded_image := some [7], shape := [1, 2, 3], decoded := true }

/-- Claim C5, witness: decoding a fresh one-byte image succeeds, and the
second `Decode` call fails with the invalid-state error while the state
is unchanged. -/
theorem decode_twice_witness :
    Image.Decode exampleExt exampleDecoded =
      (Except.error
        (DaliError.invalidState "Called decode for already decoded image"),
        exampleDecoded) :=
  decode_twice_invalid_state exampleExt
    (Image.construct [9] 1 DALIImageType.DALI_RGB) exampleDecoded rfl

/-- Claim C6, witness: the fresh image rejects both getters, and after
the decode they return the stored buffer and shape. -/
theorem get_lifecycle_witness :
    Image.GetImage (Image.construct [9] 1 DALIImageType.DALI_RGB) =
      (Except.error (DaliError.invalidState "Image not decoded. Run Decode()"),
        Image.construct [9] 1 DALIImageType.DALI_RGB) ∧
    Image.GetShape (Image.construct [9] 1 DALIImageType.DALI_RGB) =
      (Except.error (DaliError.invalidState "Image not decoded. Run Decode()"),
        Image.construct [9] 1 DALIImageType.DALI_RGB) ∧
    ∃ d, exampleExt.DecodeImpl DALIImageType.DALI_RGB [9] 1 = Except.ok d ∧
      Image.GetImage exampleDecoded = (Except.ok d.1, exampleDecoded) ∧
      Image.GetShape exampleDecoded = (Except.ok d.2, exampleDecoded) :=
  get_fails_pending_and_reads_after_decode [9] 1 DALIImageType.DALI_RGB
    exampleExt exampleDecoded rfl

/-- Claim C7, witness: on the one-byte image, the peeked shape equals
the shape `GetShape` reports after the decode. -/
theorem peek_getShape_witness :
    Image.GetShape exampleDecoded =
      (Except.ok
        (Image.PeekShape exampleExt
          (Image.construct [9] 1 DALIImageType.DALI_RGB)).1,
        exampleDecoded) :=
  peekShape_eq_getShape_after_decode [9] 1 DALIImageType.DALI_RGB exampleExt
    exampleDecoded
    (fun d hd => by
      injection hd with h
      rw [← h]
      rfl)
    rfl

/-- Claim C10, witness: a failing decode on a fresh image reports the
extension error and leaves the image pending. -/
theorem decode_failure_witness :
    Image.Decode exampleFailExt (Image.construct [9] 1 DALIImageType.DALI_RGB) =
      (Except.error (DaliError.extensionFailure "corrupt"),
        Image.construct [9] 1 DALIImageType.DALI_RGB) ∧
    (Image.Decode exampleFailExt
      (Image.construct [9] 1 DALIImageType.DALI_RGB)).2.decoded = false :=
  decode_failure_leaves_pending exampleFailExt
    (Image.construct [9] 1 DALIImageType.DALI_RGB)
    (DaliError.extensionFailure "corrupt") rfl rfl

end Dali
